import Mathlib

/-!
Verification development for the interview scheduling engine of the
AI-interview-agent repository (src/scheduler.py, with the candidate-name
normalisation of the caller in src/main.py).

Shallow embedding conventions:
* Time instants are natural numbers counting minutes; a calendar day is
  1440 minutes.  All slot boundaries produced by the code fall on whole
  minutes, and lexicographic comparison of the ISO-8601 strings used by
  the SQLite layer agrees with numeric comparison of these instants.
* `datetime.weekday()` (Monday = 0 .. Sunday = 6) becomes `weekday` below;
  day 0 of the epoch is taken to be a Thursday (weekday 3), matching
  1970-01-01.
* `uuid.uuid4()` freshness is modelled by the counter `nextId`: a fresh id
  is drawn per successful insert.  A draw discarded on a failed booking
  does not touch the stores.
* SQLite rows become list elements; `UPDATE ... WHERE c` becomes a `map`
  that rewrites exactly the rows satisfying `c`; `SELECT ... fetchone()`
  becomes `find?` / a minimum selection; the implicit commit or rollback
  of the `with sqlite3.connect(...)` context manager is reflected in which
  state each branch returns.
* Errors that the Python code signals by returning `None` after printing a
  branch-specific message are modelled by the corresponding constructor of
  `BookError` / `InitError`.
-/

namespace InterviewScheduler

/-- Minutes per calendar day. -/
def minutesPerDay : Nat := 1440

/-- Calendar day index of an instant (minutes since epoch). -/
def dayOf (t : Nat) : Nat := t / 1440

/-- Minute-of-day of an instant. -/
def minuteOfDay (t : Nat) : Nat := t % 1440

/-- Python `datetime.weekday()`: Monday = 0 .. Sunday = 6.
Day 0 is a Thursday (weekday 3), as 1970-01-01 was. -/
def weekday (d : Nat) : Nat := (d + 3) % 7

/-- A row of the `available_slots` table (src/scheduler.py, schema lines
53-62): slot_id TEXT PRIMARY KEY, start_time, end_time, is_available,
session_id (nullable), created_at. -/
structure Slot where
  slot_id : Nat
  start_time : Nat
  end_time : Nat
  is_available : Bool
  session_id : Option Nat
  created_at : Nat
  deriving Repr, DecidableEq

/-- A row of the `scheduled_sessions` table (src/scheduler.py, schema lines
38-50). -/
structure Session where
  session_id : Nat
  candidate_name : String
  candidate_email : String
  candidate_phone : String
  scheduled_time : Nat
  status : String
  created_at : Nat
  reminder_sent : Bool
  notes : String
  deriving Repr, DecidableEq

/-- The persistent state of the scheduler: both tables plus the fresh-id
supply standing in for `uuid.uuid4()`. -/
structure SchedulerState where
  slots : List Slot
  sessions : List Session
  nextId : Nat
  deriving Repr, DecidableEq

/-- The hour loop of `_generate_default_slots`: `for hour in range(9, 17)`
produces one start per hour of calendar day `d`
(src/scheduler.py lines 93-95). -/
def hourStarts (d : Nat) : List Nat :=
  (List.range 8).map (fun i => d * 1440 + (9 + i) * 60)

/-- The day loop of `_generate_default_slots`: `for day in range(7)` over
consecutive calendar days starting at `d`, skipping days with
`weekday() >= 5` (src/scheduler.py lines 85-95). -/
def dayStarts (d n : Nat) : List Nat :=
  match n with
  | 0 => []
  | n + 1 => (if 5 ≤ weekday d then [] else hourStarts d) ++ dayStarts (d + 1) n

/-- Number of generated weekdays among the `n` consecutive days starting
at `d` (the days whose slots survive the weekend check). -/
def weekdayCount (d n : Nat) : Nat :=
  match n with
  | 0 => 0
  | n + 1 => (if 5 ≤ weekday d then 0 else 1) + weekdayCount (d + 1) n

/-- The INSERT loop: each generated start becomes a fresh row, fully
available, with `end_time` one hour after `start_time`
(src/scheduler.py lines 97-101). Ids are drawn in generation order. -/
def assignIds (nid now : Nat) : List Nat → List Slot
  | [] => []
  | st :: rest =>
    { slot_id := nid, start_time := st, end_time := st + 60,
      is_available := true, session_id := none, created_at := now } ::
      assignIds (nid + 1) now rest

/-- `MockScheduler._generate_default_slots` (src/scheduler.py lines 71-104):
if the slot table is non-empty the call is a no-op; otherwise it seeds
slots for 7 calendar days starting from 09:00 of the current day
(`datetime.now().replace(hour=9, minute=0, ...)`). -/
def generate_default_slots (now : Nat) (s : SchedulerState) : SchedulerState :=
  if 0 < s.slots.length then s
  else
    let starts := dayStarts (now / 1440) 7
    { slots := assignIds s.nextId now starts
      sessions := s.sessions
      nextId := s.nextId + starts.length }

/-- Comparison used by `ORDER BY start_time`. -/
def slotLE (a b : Slot) : Prop := a.start_time ≤ b.start_time

instance : DecidableRel slotLE := fun a b => Nat.decLe a.start_time b.start_time

instance : IsTotal Slot slotLE := ⟨fun a b => Nat.le_total a.start_time b.start_time⟩

instance : IsTrans Slot slotLE := ⟨fun _ _ _ hab hbc => Nat.le_trans hab hbc⟩

/-- `MockScheduler.get_available_slots` (src/scheduler.py lines 109-148):
available slots with `start_time` strictly between now and
now + days_ahead days, ordered ascending by start. -/
def get_available_slots (now days_ahead : Nat) (s : SchedulerState) : List Slot :=
  List.insertionSort slotLE
    (s.slots.filter (fun sl =>
      sl.is_available && decide (now < sl.start_time) &&
        decide (sl.start_time < now + days_ahead * 1440)))

/-- The two failure modes of `book_session`, distinguished in the source by
their messages: "Slot ... is not available" (line 193) and
"No available slots found" (line 218).  Both surface as a `None` return. -/
inductive BookError
  | slotUnavailable
  | noSlotsAvailable
  deriving Repr, DecidableEq

/-- The UPDATE claiming a slot (src/scheduler.py lines 199-203 and 225-229):
`SET is_available = FALSE, session_id = ? WHERE slot_id = ?`. -/
def claimSlot (sid newSession : Nat) (slots : List Slot) : List Slot :=
  slots.map (fun sl =>
    if sl.slot_id = sid then
      { sl with is_available := false, session_id := some newSession }
    else sl)

/-- `SELECT ... WHERE is_available AND start_time > now ORDER BY start_time
LIMIT 1` applied to an already-filtered candidate list: the first row of
minimal start instant. -/
def pickEarliest : List Slot → Option Slot
  | [] => none
  | sl :: rest =>
    match pickEarliest rest with
    | none => some sl
    | some b => if b.start_time < sl.start_time then some b else some sl

/-- The INSERT of src/scheduler.py lines 232-238: the new session row,
status 'confirmed', `reminder_sent` left at its FALSE default, all
candidate fields stored verbatim. -/
def newSessionRow (sid : Nat) (name email phone : String) (t now : Nat)
    (notes : String) : Session :=
  { session_id := sid, candidate_name := name, candidate_email := email,
    candidate_phone := phone, scheduled_time := t, status := "confirmed",
    created_at := now, reminder_sent := false, notes := notes }

/-- `MockScheduler.book_session` (src/scheduler.py lines 158-246).
With a supplied slot id, the slot must exist and be available, otherwise
the call fails (slot-unavailable branch) leaving the stores untouched.
Without one, the available slot with the earliest start strictly after
now is taken, if any.  On success the claiming UPDATE and the session
INSERT commit together. -/
def book_session (now : Nat) (candidate_name candidate_email candidate_phone : String)
    (slot_id : Option Nat) (notes : String) (s : SchedulerState) :
    Except BookError Nat × SchedulerState :=
  let session_id := s.nextId
  match slot_id with
  | some sid =>
    match s.slots.find? (fun sl => sl.slot_id == sid && sl.is_available) with
    | none => (Except.error BookError.slotUnavailable, s)
    | some sl =>
      (Except.ok session_id,
        { slots := claimSlot sid session_id s.slots
          sessions := s.sessions ++
            [newSessionRow session_id candidate_name candidate_email
              candidate_phone sl.start_time now notes]
          nextId := s.nextId + 1 })
  | none =>
    match pickEarliest (s.slots.filter (fun sl =>
        sl.is_available && decide (now < sl.start_time))) with
    | none => (Except.error BookError.noSlotsAvailable, s)
    | some sl =>
      (Except.ok session_id,
        { slots := claimSlot sl.slot_id session_id s.slots
          sessions := s.sessions ++
            [newSessionRow session_id candidate_name candidate_email
              candidate_phone sl.start_time now notes]
          nextId := s.nextId + 1 })

/-- `MockScheduler.cancel_session` (src/scheduler.py lines 297-335).
Two sequential UPDATEs; the success test reads `cursor.rowcount` of the
SECOND statement (the slot release).  In both branches the `with` block
exits without an exception, so sqlite3 commits both UPDATEs; hence both
branches return the updated stores. -/
def cancel_session (sid : Nat) (s : SchedulerState) : Bool × SchedulerState :=
  let sessions2 := s.sessions.map (fun ses =>
    if ses.session_id = sid then { ses with status := "cancelled" } else ses)
  let slots2 := s.slots.map (fun sl =>
    if sl.session_id = some sid then
      { sl with is_available := true, session_id := none }
    else sl)
  let rowcount := (s.slots.filter (fun sl => sl.session_id == some sid)).length
  if 0 < rowcount then
    (true, { s with sessions := sessions2, slots := slots2 })
  else
    (false, { s with sessions := sessions2, slots := slots2 })

/-- `MockScheduler.complete_session` (src/scheduler.py lines 337-367):
one UPDATE of the session status; slots are never touched. -/
def complete_session (sid : Nat) (s : SchedulerState) : Bool × SchedulerState :=
  let sessions2 := s.sessions.map (fun ses =>
    if ses.session_id = sid then { ses with status := "completed" } else ses)
  let rowcount := (s.sessions.filter (fun ses => ses.session_id == sid)).length
  if 0 < rowcount then
    (true, { s with sessions := sessions2 })
  else
    (false, { s with sessions := sessions2 })

/-- Fatal initialization failure (src/scheduler.py lines 67-69 re-raise). -/
inductive InitError
  | storageUnavailable
  deriving Repr, DecidableEq

/-- `_generate_default_slots` as invoked, with its exception handler
(src/scheduler.py lines 106-107): a storage error makes the `with` block
roll back every insert of the seeding transaction, and the `except` clause
merely prints — the function returns normally with the store unchanged. -/
def generate_default_slots_caught (storage_error : Bool) (now : Nat)
    (s : SchedulerState) : SchedulerState :=
  if storage_error then s else generate_default_slots now s

/-- `MockScheduler.__init__` (src/scheduler.py lines 20-29):
`init_scheduler_db` re-raises storage errors (aborting construction),
then `_generate_default_slots` runs with its swallowing handler. -/
def scheduler_init (db_error gen_error : Bool) (now : Nat)
    (s : SchedulerState) : Except InitError SchedulerState :=
  if db_error then Except.error InitError.storageUnavailable
  else Except.ok (generate_default_slots_caught gen_error now s)

/-- The candidate-name normalisation performed by the caller in
src/main.py lines 354-356: the input is stripped, and a blank result is
replaced by the placeholder literal. -/
def normalize_candidate_name (raw : String) : String :=
  if raw.trim = "" then "Unknown Candidate" else raw.trim

/-- The booking step of `schedule_interview` (src/main.py lines 354-405):
normalise the name, then call `book_session`. -/
def schedule_interview_book (now : Nat) (raw email phone : String)
    (slot_id : Option Nat) (notes : String) (s : SchedulerState) :
    Except BookError Nat × SchedulerState :=
  book_session now (normalize_candidate_name raw) email phone slot_id notes s

/-- The invariant of the spec's data model: a slot's session back-reference
is non-null iff its availability flag is false. -/
def slotInv (s : SchedulerState) : Prop :=
  ∀ sl ∈ s.slots, (sl.session_id.isSome = true ↔ sl.is_available = false)

/-- Well-formedness of a scheduler state, as maintained by the operations:
unique slot and session ids, the back-reference/availability invariant,
every slot back-reference names an existing session, and every confirmed
session is referenced by some slot. -/
def WF (s : SchedulerState) : Prop :=
  (s.slots.map Slot.slot_id).Nodup ∧
  (s.sessions.map Session.session_id).Nodup ∧
  slotInv s ∧
  (∀ sl ∈ s.slots, sl.session_id.isSome = true →
    ∃ ses ∈ s.sessions, some ses.session_id = sl.session_id) ∧
  (∀ ses ∈ s.sessions, ses.status = "confirmed" →
    ∃ sl ∈ s.slots, sl.session_id = some ses.session_id)

instance : DecidablePred slotInv := fun s => by
  unfold slotInv; infer_instance

instance : DecidablePred WF := fun s => by
  unfold WF; infer_instance

/-! ### Concrete states used by the witnesses -/

def slotA : Slot :=
  { slot_id := 0, start_time := 1000, end_time := 1060,
    is_available := true, session_id := none, created_at := 0 }

def slotB : Slot :=
  { slot_id := 1, start_time := 2000, end_time := 2060,
    is_available := true, session_id := none, created_at := 0 }

/-- Two available future slots, no sessions yet. -/
def stateA : SchedulerState := { slots := [slotA, slotB], sessions := [], nextId := 2 }

def slotC : Slot :=
  { slot_id := 0, start_time := 1000, end_time := 1060,
    is_available := false, session_id := some 5, created_at := 0 }

def sessionC : Session :=
  { session_id := 5, candidate_name := "Ann", candidate_email := "a@b",
    candidate_phone := "1", scheduled_time := 1000, status := "confirmed",
    created_at := 0, reminder_sent := false, notes := "" }

/-- One claimed slot with its confirmed session, one free slot. -/
def stateB : SchedulerState := { slots := [slotC, slotB], sessions := [sessionC], nextId := 6 }

def emptyState : SchedulerState := { slots := [], sessions := [], nextId := 0 }

/-! ### Helper lemmas -/

lemma map_eq_self_of_eq {α : Type} (l : List α) (f : α → α)
    (h : ∀ x ∈ l, f x = x) : l.map f = l := by
  induction l with
  | nil => rfl
  | cons a rest ih =>
    simp only [List.map_cons]
    rw [h a (List.mem_cons_self a rest), ih (fun x hx => h x (List.mem_cons_of_mem a hx))]

lemma pickEarliest_mem {l : List Slot} : ∀ {x : Slot},
    pickEarliest l = some x → x ∈ l := by
  induction l with
  | nil => intro x h; simp [pickEarliest] at h
  | cons a rest ih =>
    intro x h
    simp only [pickEarliest] at h
    cases hr : pickEarliest rest with
    | none =>
      simp only [hr, Option.some.injEq] at h
      exact h ▸ List.mem_cons_self a rest
    | some b =>
      simp only [hr] at h
      by_cases hc : b.start_time < a.start_time
      · rw [if_pos hc] at h
        simp only [Option.some.injEq] at h
        exact List.mem_cons_of_mem a (ih (h ▸ hr))
      · rw [if_neg hc] at h
        simp only [Option.some.injEq] at h
        exact h ▸ List.mem_cons_self a rest

lemma pickEarliest_eq_none {l : List Slot} (h : pickEarliest l = none) : l = [] := by
  cases l with
  | nil => rfl
  | cons a rest =>
    simp only [pickEarliest] at h
    cases hr : pickEarliest rest with
    | none => simp [hr] at h
    | some b =>
      simp only [hr] at h
      by_cases hc : b.start_time < a.start_time
      · rw [if_pos hc] at h; simp at h
      · rw [if_neg hc] at h; simp at h

lemma pickEarliest_min {l : List Slot} : ∀ {x : Slot},
    pickEarliest l = some x → ∀ y ∈ l, x.start_time ≤ y.start_time := by
  induction l with
  | nil => intro x h; simp [pickEarliest] at h
  | cons a rest ih =>
    intro x h
    simp only [pickEarliest] at h
    intro y hy
    cases hr : pickEarliest rest with
    | none =>
      simp only [hr, Option.some.injEq] at h
      have hrest := pickEarliest_eq_none hr
      subst hrest
      rcases List.mem_cons.mp hy with hya | hya
      · rw [← h, hya]
      · simp at hya
    | some b =>
      simp only [hr] at h
      rcases List.mem_cons.mp hy with hya | hya
      · subst hya
        by_cases hc : b.start_time < y.start_time
        · rw [if_pos hc] at h
          simp only [Option.some.injEq] at h
          rw [← h]; exact Nat.le_of_lt hc
        · rw [if_neg hc] at h
          simp only [Option.some.injEq] at h
          rw [← h]
      · by_cases hc : b.start_time < a.start_time
        · rw [if_pos hc] at h
          simp only [Option.some.injEq] at h
          exact ih (h ▸ hr) y hya
        · rw [if_neg hc] at h
          simp only [Option.some.injEq] at h
          rw [← h]
          exact Nat.le_trans (Nat.le_of_not_lt hc) (ih hr y hya)

lemma get_congr {α : Type} (l1 l2 : List α) (h : l1 = l2) (i : Nat)
    (h1 : i < l1.length) (h2 : i < l2.length) :
    l1.get ⟨i, h1⟩ = l2.get ⟨i, h2⟩ := by
  subst h; rfl

lemma claimSlot_length (sid n : Nat) (slots : List Slot) :
    (claimSlot sid n slots).length = slots.length := by
  simp [claimSlot]

lemma claimSlot_get (sid n : Nat) (slots : List Slot) (i : Nat)
    (hi : i < slots.length) (hi2 : i < (claimSlot sid n slots).length) :
    (claimSlot sid n slots).get ⟨i, hi2⟩ =
      (if (slots.get ⟨i, hi⟩).slot_id = sid then
        { slots.get ⟨i, hi⟩ with is_available := false, session_id := some n }
      else slots.get ⟨i, hi⟩) := by
  simp [claimSlot, List.get_eq_getElem, List.getElem_map]

lemma slot_id_ne_of_nodup (slots : List Slot)
    (h : (slots.map Slot.slot_id).Nodup)
    (i j : Nat) (hi : i < slots.length) (hj : j < slots.length) (hij : i ≠ j) :
    (slots.get ⟨i, hi⟩).slot_id ≠ (slots.get ⟨j, hj⟩).slot_id := by
  intro he
  have h1 : (slots.map Slot.slot_id).get ⟨i, by simpa using hi⟩ =
      (slots.map Slot.slot_id).get ⟨j, by simpa using hj⟩ := by
    simp only [List.get_eq_getElem, List.getElem_map]
    exact he
  have h2 := (List.Nodup.get_inj_iff h).mp h1
  exact hij (by simpa using congrArg Fin.val h2)

/-- The effect claimed for a successful booking on the slot table: the slot
at index `i` flips from available to unavailable with back-reference `n`,
and every other slot is untouched. -/
def claimedAt (s s2 : SchedulerState) (n i : Nat) : Prop :=
  ∃ hi : i < s.slots.length, ∃ hi2 : i < s2.slots.length,
    (s.slots.get ⟨i, hi⟩).is_available = true ∧
    s2.slots.get ⟨i, hi2⟩ =
      { s.slots.get ⟨i, hi⟩ with is_available := false, session_id := some n } ∧
    s2.slots.length = s.slots.length ∧
    ∀ j, ∀ hj : j < s.slots.length, ∀ hj2 : j < s2.slots.length, j ≠ i →
      s2.slots.get ⟨j, hj2⟩ = s.slots.get ⟨j, hj⟩

lemma claimedAt_of_mem (s s2 : SchedulerState) (n : Nat) (sl : Slot)
    (hids : (s.slots.map Slot.slot_id).Nodup)
    (hmem : sl ∈ s.slots) (havail : sl.is_available = true)
    (hslots : s2.slots = claimSlot sl.slot_id n s.slots) :
    ∃ i, ∃ hi : i < s.slots.length, s.slots.get ⟨i, hi⟩ = sl ∧ claimedAt s s2 n i := by
  obtain ⟨⟨i, hi⟩, hget⟩ := List.mem_iff_get.mp hmem
  have hlen : s2.slots.length = s.slots.length := by
    rw [hslots, claimSlot_length]
  refine ⟨i, hi, hget, hi, by omega, by rw [hget]; exact havail, ?_, hlen, ?_⟩
  · have hi2 : i < (claimSlot sl.slot_id n s.slots).length := by
      rw [claimSlot_length]; exact hi
    have := claimSlot_get sl.slot_id n s.slots i hi hi2
    rw [hget] at this ⊢
    have hgoal : s2.slots.get ⟨i, by omega⟩ =
        (claimSlot sl.slot_id n s.slots).get ⟨i, hi2⟩ :=
      get_congr _ _ hslots i (by omega) hi2
    rw [hgoal, this, if_pos rfl]
  · intro j hj hj2 hne
    have hj2c : j < (claimSlot sl.slot_id n s.slots).length := by
      rw [claimSlot_length]; exact hj
    have hgoal : s2.slots.get ⟨j, hj2⟩ =
        (claimSlot sl.slot_id n s.slots).get ⟨j, hj2c⟩ :=
      get_congr _ _ hslots j hj2 hj2c
    rw [hgoal, claimSlot_get sl.slot_id n s.slots j hj hj2c]
    rw [if_neg]
    have hne2 := slot_id_ne_of_nodup s.slots hids j i hj hi hne
    rw [hget] at hne2
    exact hne2

/-- Decomposition of any successful `book_session` call: the returned id is
the fresh one, some available slot was found, the slot table is the
claiming UPDATE, and the session table gains exactly the new row. -/
lemma book_session_ok_parts (now : Nat) (name email phone : String)
    (slotId : Option Nat) (notes : String) (s : SchedulerState)
    (sid : Nat) (s2 : SchedulerState)
    (h : book_session now name email phone slotId notes s = (Except.ok sid, s2)) :
    sid = s.nextId ∧ ∃ sl, sl ∈ s.slots ∧ sl.is_available = true ∧
      s2.slots = claimSlot sl.slot_id s.nextId s.slots ∧
      s2.sessions = s.sessions ++
        [newSessionRow s.nextId name email phone sl.start_time now notes] ∧
      s2.nextId = s.nextId + 1 := by
  cases slotId with
  | some sid0 =>
    cases hfind : s.slots.find? (fun sl => sl.slot_id == sid0 && sl.is_available) with
    | none => simp [book_session, hfind] at h
    | some sl =>
      have hmem := List.mem_of_find?_eq_some hfind
      have hp := List.find?_some hfind
      simp only [Bool.and_eq_true, beq_iff_eq] at hp
      simp only [book_session, hfind] at h
      rw [Prod.mk.injEq] at h
      obtain ⟨h1, h2⟩ := h
      simp only [Except.ok.injEq] at h1
      refine ⟨h1.symm, sl, hmem, hp.2, ?_, ?_, ?_⟩
      · rw [← h2, hp.1]
      · rw [← h2]
      · rw [← h2]
  | none =>
    cases hpick : pickEarliest (s.slots.filter (fun sl =>
        sl.is_available && decide (now < sl.start_time))) with
    | none => simp [book_session, hpick] at h
    | some sl =>
      have hmem0 := pickEarliest_mem hpick
      have hmem2 := List.mem_filter.mp hmem0
      have hpred := hmem2.2
      simp only [Bool.and_eq_true, decide_eq_true_eq] at hpred
      simp only [book_session, hpick] at h
      rw [Prod.mk.injEq] at h
      obtain ⟨h1, h2⟩ := h
      simp only [Except.ok.injEq] at h1
      refine ⟨h1.symm, sl, hmem2.1, hpred.1, ?_, ?_, ?_⟩
      · rw [← h2]
      · rw [← h2]
      · rw [← h2]

/-! ### Lemmas about slot generation -/

lemma mem_hourStarts {x d : Nat} :
    x ∈ hourStarts d ↔ ∃ h, 9 ≤ h ∧ h < 17 ∧ x = d * 1440 + h * 60 := by
  simp only [hourStarts, List.mem_map, List.mem_range]
  constructor
  · rintro ⟨i, hi, rfl⟩
    exact ⟨9 + i, by omega, by omega, rfl⟩
  · rintro ⟨h, h9, h17, rfl⟩
    exact ⟨h - 9, by omega, by omega⟩

lemma hourStarts_nodup (d : Nat) : (hourStarts d).Nodup := by
  apply List.Nodup.map
  · intro a b hab
    simp only at hab
    omega
  · exact List.nodup_range 8

lemma hourStarts_bounds {x d : Nat} (h : x ∈ hourStarts d) :
    d * 1440 + 540 ≤ x ∧ x ≤ d * 1440 + 960 := by
  obtain ⟨hh, h9, h17, rfl⟩ := mem_hourStarts.mp h
  omega

lemma mem_dayStarts {x : Nat} : ∀ {n d : Nat},
    x ∈ dayStarts d n ↔ ∃ i, i < n ∧ weekday (d + i) < 5 ∧ x ∈ hourStarts (d + i) := by
  intro n
  induction n with
  | zero => intro d; simp [dayStarts]
  | succ n ih =>
    intro d
    simp only [dayStarts, List.mem_append]
    constructor
    · rintro (hx | hx)
      · by_cases hw : 5 ≤ weekday d
        · rw [if_pos hw] at hx; simp at hx
        · rw [if_neg hw] at hx
          exact ⟨0, Nat.succ_pos n, by simpa using Nat.lt_of_not_le hw, by simpa using hx⟩
      · obtain ⟨i, hi, hwd, hx2⟩ := (ih (d := d + 1)).mp hx
        refine ⟨i + 1, by omega, ?_, ?_⟩
        · rw [show d + (i + 1) = d + 1 + i by omega]; exact hwd
        · rw [show d + (i + 1) = d + 1 + i by omega]; exact hx2
    · rintro ⟨i, hi, hwd, hx⟩
      cases i with
      | zero =>
        left
        rw [Nat.add_zero] at hwd hx
        rw [if_neg (Nat.not_le_of_lt hwd)]
        exact hx
      | succ j =>
        right
        apply (ih (d := d + 1)).mpr
        refine ⟨j, by omega, ?_, ?_⟩
        · rw [show d + 1 + j = d + (j + 1) by omega]; exact hwd
        · rw [show d + 1 + j = d + (j + 1) by omega]; exact hx

lemma dayStarts_bounds {x d n : Nat} (h : x ∈ dayStarts d n) :
    d * 1440 + 540 ≤ x ∧ x < (d + n) * 1440 := by
  obtain ⟨i, hi, _, hx⟩ := mem_dayStarts.mp h
  obtain ⟨h1, h2⟩ := hourStarts_bounds hx
  constructor <;> omega

lemma dayStarts_nodup : ∀ (n d : Nat), (dayStarts d n).Nodup := by
  intro n
  induction n with
  | zero => intro d; simp [dayStarts]
  | succ n ih =>
    intro d
    by_cases hw : 5 ≤ weekday d
    · simpa [dayStarts, if_pos hw] using ih (d + 1)
    · simp only [dayStarts, if_neg hw]
      apply List.Nodup.append (hourStarts_nodup d) (ih (d + 1))
      intro x hx1 hx2
      have h1 := hourStarts_bounds hx1
      have h2 := dayStarts_bounds hx2
      omega

lemma dayStarts_length : ∀ (n d : Nat), (dayStarts d n).length = 8 * weekdayCount d n := by
  intro n
  induction n with
  | zero => intro d; simp [dayStarts, weekdayCount]
  | succ n ih =>
    intro d
    by_cases hw : 5 ≤ weekday d
    · simp [dayStarts, weekdayCount, if_pos hw, ih (d + 1)]
    · simp only [dayStarts, weekdayCount, if_neg hw, List.length_append, ih (d + 1)]
      have : (hourStarts d).length = 8 := by simp [hourStarts]
      omega

lemma weekdayCount_pos : ∀ (n d : Nat),
    (∃ i, i < n ∧ weekday (d + i) < 5) → 0 < weekdayCount d n := by
  intro n
  induction n with
  | zero =>
    rintro d ⟨i, hi, _⟩
    omega
  | succ n ih =>
    rintro d ⟨i, hi, hwd⟩
    by_cases hw : 5 ≤ weekday d
    · have hpos : 0 < weekdayCount (d + 1) n := by
        apply ih
        cases i with
        | zero =>
          rw [Nat.add_zero] at hwd
          omega
        | succ j =>
          exact ⟨j, by omega, by rw [show d + 1 + j = d + (j + 1) by omega]; exact hwd⟩
      simp only [weekdayCount, if_pos hw]
      omega
    · simp only [weekdayCount, if_neg hw]
      omega

lemma weekdayCount_seven_pos (d : Nat) : 0 < weekdayCount d 7 := by
  apply weekdayCount_pos
  refine ⟨(7 - (d + 3) % 7) % 7, by omega, ?_⟩
  unfold weekday
  omega

lemma assignIds_length (now : Nat) : ∀ (l : List Nat) (nid : Nat),
    (assignIds nid now l).length = l.length := by
  intro l
  induction l with
  | nil => intro nid; rfl
  | cons a rest ih => intro nid; simp [assignIds, ih (nid + 1)]

lemma mem_assignIds : ∀ {l : List Nat} {nid now : Nat} {sl : Slot},
    sl ∈ assignIds nid now l →
    sl.is_available = true ∧ sl.session_id = none ∧
      sl.end_time = sl.start_time + 60 ∧ sl.start_time ∈ l ∧ sl.created_at = now := by
  intro l
  induction l with
  | nil => intro nid now sl h; simp [assignIds] at h
  | cons a rest ih =>
    intro nid now sl h
    simp only [assignIds, List.mem_cons] at h
    rcases h with h | h
    · subst h; simp
    · obtain ⟨h1, h2, h3, h4, h5⟩ := ih h
      exact ⟨h1, h2, h3, List.mem_cons_of_mem a h4, h5⟩

lemma assignIds_map_start (now : Nat) : ∀ (l : List Nat) (nid : Nat),
    (assignIds nid now l).map Slot.start_time = l := by
  intro l
  induction l with
  | nil => intro nid; rfl
  | cons a rest ih => intro nid; simp [assignIds, ih (nid + 1)]

lemma length_filter_start (l : List Slot) (x : Nat) :
    (l.filter (fun sl => sl.start_time == x)).length = (l.map Slot.start_time).count x := by
  rw [List.count, List.countP_map, List.countP_eq_length_filter]
  rfl

/-! ### Claim theorems -/

/-- C1: for every successful call to `book_session`, exactly one slot
transitions from available to unavailable with its session back-reference
set to the newly created session id, exactly one session row is created
with status 'confirmed', and the call returns that new session id. -/
theorem book_session_success_effects
    (now : Nat) (name email phone : String) (slotId : Option Nat) (notes : String)
    (s : SchedulerState) (sid : Nat) (s2 : SchedulerState)
    (hids : (s.slots.map Slot.slot_id).Nodup)
    (h : book_session now name email phone slotId notes s = (Except.ok sid, s2)) :
    sid = s.nextId ∧
    ∃ t, s2.sessions = s.sessions ++ [newSessionRow sid name email phone t now notes] ∧
      (newSessionRow sid name email phone t now notes).status = "confirmed" ∧
      ∃ i, ∃ hi : i < s.slots.length,
        (s.slots.get ⟨i, hi⟩).start_time = t ∧ claimedAt s s2 sid i := by
  obtain ⟨hsid, sl, hmem, havail, hslots, hsess, _⟩ :=
    book_session_ok_parts now name email phone slotId notes s sid s2 h
  subst hsid
  obtain ⟨i, hi, hget, hclaim⟩ := claimedAt_of_mem s s2 s.nextId sl hids hmem havail hslots
  exact ⟨rfl, sl.start_time, hsess, rfl, i, hi, by rw [hget], hclaim⟩

/-- The state after the concrete booking used to witness C1. -/
def stateA_booked : SchedulerState := (book_session 500 "Al" "e" "p" (some 0) "n" stateA).2

/-- Witness for C1: booking slot 0 of `stateA`. -/
theorem book_session_success_effects_witness :
    2 = stateA.nextId ∧
    ∃ t, stateA_booked.sessions = stateA.sessions ++ [newSessionRow 2 "Al" "e" "p" t 500 "n"] ∧
      (newSessionRow 2 "Al" "e" "p" t 500 "n").status = "confirmed" ∧
      ∃ i, ∃ hi : i < stateA.slots.length,
        (stateA.slots.get ⟨i, hi⟩).start_time = t ∧ claimedAt stateA stateA_booked 2 i :=
  book_session_success_effects 500 "Al" "e" "p" (some 0) "n" stateA 2 stateA_booked
    (by decide) rfl

/-- C2: booking with a supplied slot id whose slot is not currently
available fails on the slot-unavailable branch, creates no session, and
leaves both stores exactly as they were. -/
theorem book_session_unavailable_unchanged
    (now : Nat) (name email phone notes : String) (sid : Nat) (s : SchedulerState)
    ( _hex : ∃ sl ∈ s.slots, sl.slot_id = sid)
    (hunavail : ∀ sl ∈ s.slots, sl.slot_id = sid → sl.is_available = false) :
    book_session now name email phone (some sid) notes s =
      (Except.error BookError.slotUnavailable, s) := by
  have hfind : s.slots.find? (fun sl => sl.slot_id == sid && sl.is_available) = none := by
    rw [List.find?_eq_none]
    intro sl hsl
    simp only [Bool.and_eq_true, beq_iff_eq, not_and]
    intro h1
    rw [hunavail sl hsl h1]
    simp
  simp [book_session, hfind]

/-- Witness for C2: booking the already-claimed slot 0 of `stateB`. -/
theorem book_session_unavailable_unchanged_witness :
    book_session 500 "X" "" "" (some 0) "" stateB =
      (Except.error BookError.slotUnavailable, stateB) :=
  book_session_unavailable_unchanged 500 "X" "" "" "" 0 stateB (by decide) (by decide)

/-- The empty string is already stripped: `"".trim = ""` (needed because
`String.trim` does not reduce definitionally). -/
lemma trim_empty_string : "".trim = "" := by
  have h1 : Substring.takeWhileAux "" 0 Char.isWhitespace 0 = 0 := by
    rw [Substring.takeWhileAux]; simp
  have h2 : Substring.takeRightWhileAux "" 0 Char.isWhitespace 0 = 0 := by
    rw [Substring.takeRightWhileAux]; simp
  simp [String.trim, String.trimLeft, String.trimRight, Substring.trim,
    String.toSubstring, Substring.toString, h1, h2]
  rfl

/-- C4 counterexample: `book_session` called directly with a blank
candidate name stores the blank name verbatim; the session row does not
carry the placeholder literal. -/
theorem book_session_blank_name_counterexample :
    (book_session 500 "" "a@b.c" "555" (some 0) "note" stateA).1 = Except.ok 2 ∧
    ((book_session 500 "" "a@b.c" "555" (some 0) "note" stateA).2.sessions.map
      Session.candidate_name) = [""] ∧
    ("" : String) ≠ "Unknown Candidate" :=
  ⟨rfl, rfl, by decide⟩

/-- C4 amended: the blank-name defaulting happens in the caller
(src/main.py lines 354-356), not inside `book_session`; a booking that
goes through the caller with a blank raw name stores the placeholder
literal, while email, phone and notes are stored verbatim. -/
theorem schedule_interview_blank_name
    (now : Nat) (raw email phone : String) (slotId : Option Nat) (notes : String)
    (s : SchedulerState) (sid : Nat) (s2 : SchedulerState)
    (hblank : raw.trim = "")
    (h : schedule_interview_book now raw email phone slotId notes s = (Except.ok sid, s2)) :
    ∃ t, s2.sessions = s.sessions ++
      [newSessionRow sid "Unknown Candidate" email phone t now notes] := by
  have hname : normalize_candidate_name raw = "Unknown Candidate" := by
    unfold normalize_candidate_name
    rw [if_pos hblank]
  unfold schedule_interview_book at h
  rw [hname] at h
  obtain ⟨hsid, sl, _, _, _, hsess, _⟩ :=
    book_session_ok_parts now "Unknown Candidate" email phone slotId notes s sid s2 h
  rw [hsid]
  exact ⟨sl.start_time, hsess⟩

/-- Witness for the amended C4: booking through the caller with a blank
name on `stateA`. -/
theorem schedule_interview_blank_name_witness :
    ∃ t, (schedule_interview_book 500 "" "e" "p" (some 0) "n" stateA).2.sessions =
      stateA.sessions ++ [newSessionRow 2 "Unknown Candidate" "e" "p" t 500 "n"] :=
  schedule_interview_blank_name 500 "" "e" "p" (some 0) "n" stateA 2
    ((schedule_interview_book 500 "" "e" "p" (some 0) "n" stateA).2) trim_empty_string
    (by rw [schedule_interview_book, normalize_candidate_name, if_pos trim_empty_string]; rfl)

/-- C3: with `slot_id` omitted, the engine claims an available slot whose
start is strictly after now and minimal among all such slots; if none
exists the call fails on the no-slots branch and the stores are unchanged
(in particular no session is created). -/
theorem book_session_auto_earliest
    (now : Nat) (name email phone notes : String) (s : SchedulerState)
    (hids : (s.slots.map Slot.slot_id).Nodup) :
    ((∃ sl ∈ s.slots, sl.is_available = true ∧ now < sl.start_time) →
      ∃ sid s2, book_session now name email phone none notes s = (Except.ok sid, s2) ∧
        ∃ i, ∃ hi : i < s.slots.length,
          (s.slots.get ⟨i, hi⟩).is_available = true ∧
          now < (s.slots.get ⟨i, hi⟩).start_time ∧
          (∀ sl ∈ s.slots, sl.is_available = true → now < sl.start_time →
            (s.slots.get ⟨i, hi⟩).start_time ≤ sl.start_time) ∧
          claimedAt s s2 sid i) ∧
    ((∀ sl ∈ s.slots, sl.is_available = true → ¬ now < sl.start_time) →
      book_session now name email phone none notes s =
        (Except.error BookError.noSlotsAvailable, s)) := by
  constructor
  · rintro ⟨sl0, hmem0, havail0, hlt0⟩
    have hc : sl0 ∈ s.slots.filter (fun sl =>
        sl.is_available && decide (now < sl.start_time)) :=
      List.mem_filter.mpr ⟨hmem0, by simp [havail0, hlt0]⟩
    cases hpick : pickEarliest (s.slots.filter (fun sl =>
        sl.is_available && decide (now < sl.start_time))) with
    | none =>
      rw [pickEarliest_eq_none hpick] at hc
      simp at hc
    | some sl =>
      have hmem := pickEarliest_mem hpick
      have hf := List.mem_filter.mp hmem
      have hpred := hf.2
      simp only [Bool.and_eq_true, decide_eq_true_eq] at hpred
      have hmin : ∀ y ∈ s.slots, y.is_available = true → now < y.start_time →
          sl.start_time ≤ y.start_time := by
        intro y hy h1 h2
        exact pickEarliest_min hpick y (List.mem_filter.mpr ⟨hy, by simp [h1, h2]⟩)
      have hbook : book_session now name email phone none notes s =
          (Except.ok s.nextId,
            { slots := claimSlot sl.slot_id s.nextId s.slots
              sessions := s.sessions ++
                [newSessionRow s.nextId name email phone sl.start_time now notes]
              nextId := s.nextId + 1 }) := by
        simp only [book_session]
        rw [hpick]
      obtain ⟨i, hi, hget, hclaim⟩ := claimedAt_of_mem s
        { slots := claimSlot sl.slot_id s.nextId s.slots
          sessions := s.sessions ++
            [newSessionRow s.nextId name email phone sl.start_time now notes]
          nextId := s.nextId + 1 } s.nextId sl hids hf.1 hpred.1 rfl
      refine ⟨s.nextId, _, hbook, i, hi, ?_, ?_, ?_, hclaim⟩
      · rw [hget]; exact hpred.1
      · rw [hget]; exact hpred.2
      · intro y hy h1 h2
        rw [hget]; exact hmin y hy h1 h2
  · intro hnone
    have hfilter : s.slots.filter (fun sl =>
        sl.is_available && decide (now < sl.start_time)) = [] := by
      rw [List.filter_eq_nil_iff]
      intro sl hsl
      simp only [Bool.and_eq_true, decide_eq_true_eq, not_and]
      exact fun h1 => hnone sl hsl h1
    simp [book_session, hfilter, pickEarliest]

/-- Witness for C3: automatic selection on `stateA` picks the slot at
1000 (the earlier of 1000 and 2000). -/
theorem book_session_auto_earliest_witness :
    ∃ sid s2, book_session 500 "Bo" "" "" none "" stateA = (Except.ok sid, s2) ∧
      ∃ i, ∃ hi : i < stateA.slots.length,
        (stateA.slots.get ⟨i, hi⟩).is_available = true ∧
        500 < (stateA.slots.get ⟨i, hi⟩).start_time ∧
        (∀ sl ∈ stateA.slots, sl.is_available = true → 500 < sl.start_time →
          (stateA.slots.get ⟨i, hi⟩).start_time ≤ sl.start_time) ∧
        claimedAt stateA s2 sid i :=
  (book_session_auto_earliest 500 "Bo" "" "" "" stateA (by decide)).1 (by decide)

/-- The slot-table part of the slot invariant survives the claiming UPDATE. -/
lemma claimSlot_inv (slots : List Slot) (q n : Nat)
    (hinv : ∀ sl ∈ slots, (sl.session_id.isSome = true ↔ sl.is_available = false)) :
    ∀ sl ∈ claimSlot q n slots,
      (sl.session_id.isSome = true ↔ sl.is_available = false) := by
  intro sl hsl
  obtain ⟨x, hx, hfx⟩ := List.mem_map.mp hsl
  subst hfx
  split_ifs with hq
  · simp
  · exact hinv x hx

/-- The state returned by `cancel_session` is the same in both branches:
the sqlite3 context manager commits the two UPDATEs on normal exit. -/
lemma cancel_session_state (sid : Nat) (s : SchedulerState) :
    (cancel_session sid s).2 =
      { s with
        sessions := s.sessions.map (fun ses =>
          if ses.session_id = sid then { ses with status := "cancelled" } else ses),
        slots := s.slots.map (fun sl =>
          if sl.session_id = some sid then
            { sl with is_available := true, session_id := none }
          else sl) } := by
  simp only [cancel_session]
  split <;> rfl

lemma cancel_session_fst (sid : Nat) (s : SchedulerState) :
    (cancel_session sid s).1 =
      decide (0 < (s.slots.filter (fun sl => sl.session_id == some sid)).length) := by
  simp only [cancel_session]
  split_ifs with h <;> simp [h]

lemma complete_session_state (sid : Nat) (s : SchedulerState) :
    (complete_session sid s).2 =
      { s with
        sessions := s.sessions.map (fun ses =>
          if ses.session_id = sid then { ses with status := "completed" } else ses) } := by
  simp only [complete_session]
  split <;> rfl

lemma complete_session_fst (sid : Nat) (s : SchedulerState) :
    (complete_session sid s).1 =
      decide (0 < (s.sessions.filter (fun ses => ses.session_id == sid)).length) := by
  simp only [complete_session]
  split_ifs with h <;> simp [h]

/-- C5: every scheduler operation preserves the invariant that a slot's
session back-reference is non-null iff its availability flag is false. -/
theorem scheduler_ops_preserve_slotInv (s : SchedulerState) (hinv : slotInv s) :
    (∀ now, slotInv (generate_default_slots now s)) ∧
    (∀ now name email phone slotId notes,
      slotInv (book_session now name email phone slotId notes s).2) ∧
    (∀ sid, slotInv (cancel_session sid s).2) ∧
    (∀ sid, slotInv (complete_session sid s).2) := by
  refine ⟨?_, ?_, ?_, ?_⟩
  · intro now
    unfold generate_default_slots
    split_ifs with h0
    · exact hinv
    · intro sl hsl
      obtain ⟨h1, h2, _, _, _⟩ := mem_assignIds hsl
      simp [h1, h2]
  · intro now name email phone slotId notes
    cases slotId with
    | some sid0 =>
      cases hfind : s.slots.find? (fun sl => sl.slot_id == sid0 && sl.is_available) with
      | none => simpa [book_session, hfind] using hinv
      | some sl =>
        simp only [book_session, hfind]
        intro x hx
        exact claimSlot_inv s.slots sid0 s.nextId hinv x hx
    | none =>
      cases hpick : pickEarliest (s.slots.filter (fun sl =>
          sl.is_available && decide (now < sl.start_time))) with
      | none => simpa [book_session, hpick] using hinv
      | some sl =>
        simp only [book_session, hpick]
        intro x hx
        exact claimSlot_inv s.slots sl.slot_id s.nextId hinv x hx
  · intro sid
    rw [slotInv, cancel_session_state]
    intro sl hsl
    obtain ⟨x, hx, hfx⟩ := List.mem_map.mp hsl
    subst hfx
    split_ifs with hq
    · simp
    · exact hinv x hx
  · intro sid
    rw [slotInv, complete_session_state]
    intro sl hsl
    exact hinv sl hsl

/-- Witness for C5 on the concrete state `stateB`. -/
theorem scheduler_ops_preserve_slotInv_witness :
    slotInv (generate_default_slots 600 stateB) ∧
    slotInv (book_session 500 "A" "" "" none "" stateB).2 ∧
    slotInv (cancel_session 5 stateB).2 ∧
    slotInv (complete_session 5 stateB).2 :=
  ⟨(scheduler_ops_preserve_slotInv stateB (by decide)).1 600,
   (scheduler_ops_preserve_slotInv stateB (by decide)).2.1 500 "A" "" "" none "",
   (scheduler_ops_preserve_slotInv stateB (by decide)).2.2.1 5,
   (scheduler_ops_preserve_slotInv stateB (by decide)).2.2.2 5⟩

/-- C6: cancelling an existing confirmed session returns success, marks
every session row with that id 'cancelled', releases every slot claimed by
it (availability true, back-reference cleared) and touches nothing else;
cancelling an id with no session row fails and leaves the state exactly
unchanged. -/
theorem cancel_session_spec (sid : Nat) (s : SchedulerState) (hwf : WF s) :
    ((∃ ses ∈ s.sessions, ses.session_id = sid ∧ ses.status = "confirmed") →
      (cancel_session sid s).1 = true ∧
      (∀ ses ∈ (cancel_session sid s).2.sessions,
        ses.session_id = sid → ses.status = "cancelled") ∧
      (∀ ses ∈ s.sessions, ses.session_id ≠ sid →
        ses ∈ (cancel_session sid s).2.sessions) ∧
      (∀ sl ∈ s.slots, sl.session_id = some sid →
        { sl with is_available := true, session_id := none } ∈
          (cancel_session sid s).2.slots) ∧
      (∀ sl ∈ (cancel_session sid s).2.slots, sl.session_id ≠ some sid) ∧
      (∀ sl ∈ s.slots, sl.session_id ≠ some sid →
        sl ∈ (cancel_session sid s).2.slots)) ∧
    ((∀ ses ∈ s.sessions, ses.session_id ≠ sid) →
      (cancel_session sid s).1 = false ∧ (cancel_session sid s).2 = s) := by
  obtain ⟨hids, hsids, hinv, hrefs, hconf⟩ := hwf
  constructor
  · rintro ⟨ses0, hses0, hid0, hst0⟩
    obtain ⟨sl0, hsl0, href0⟩ := hconf ses0 hses0 hst0
    rw [hid0] at href0
    have hcount : 0 < (s.slots.filter (fun sl => sl.session_id == some sid)).length := by
      have : sl0 ∈ s.slots.filter (fun sl => sl.session_id == some sid) :=
        List.mem_filter.mpr ⟨hsl0, by simp [href0]⟩
      exact List.length_pos.mpr (List.ne_nil_of_mem this)
    refine ⟨?_, ?_, ?_, ?_, ?_, ?_⟩
    · rw [cancel_session_fst]
      simpa using hcount
    · intro ses hses hid
      rw [cancel_session_state] at hses
      obtain ⟨x, hx, hfx⟩ := List.mem_map.mp hses
      by_cases hq : x.session_id = sid
      · rw [if_pos hq] at hfx
        rw [← hfx]
      · rw [if_neg hq] at hfx
        rw [← hfx] at hid
        exact absurd hid hq
    · intro ses hses hid
      rw [cancel_session_state]
      exact List.mem_map.mpr ⟨ses, hses, if_neg hid⟩
    · intro sl hsl href
      rw [cancel_session_state]
      exact List.mem_map.mpr ⟨sl, hsl, if_pos href⟩
    · intro sl hsl
      rw [cancel_session_state] at hsl
      obtain ⟨x, hx, hfx⟩ := List.mem_map.mp hsl
      by_cases hq : x.session_id = some sid
      · rw [if_pos hq] at hfx
        rw [← hfx]
        simp
      · rw [if_neg hq] at hfx
        rw [← hfx]
        exact hq
    · intro sl hsl href
      rw [cancel_session_state]
      exact List.mem_map.mpr ⟨sl, hsl, if_neg href⟩
  · intro hnone
    have hnoslot : ∀ sl ∈ s.slots, ¬ sl.session_id = some sid := by
      intro sl hsl hq
      obtain ⟨ses, hses, hsome⟩ := hrefs sl hsl (by rw [hq]; rfl)
      rw [hq, Option.some.injEq] at hsome
      exact hnone ses hses hsome
    have hcount : (s.slots.filter (fun sl => sl.session_id == some sid)) = [] := by
      rw [List.filter_eq_nil_iff]
      intro sl hsl
      simpa using hnoslot sl hsl
    constructor
    · rw [cancel_session_fst, hcount]
      simp
    · rw [cancel_session_state]
      rw [map_eq_self_of_eq _ _ (fun x hx => if_neg (hnone x hx)),
        map_eq_self_of_eq _ _ (fun x hx => if_neg (hnoslot x hx))]

/-- Witness for C6: cancelling the confirmed session 5 of `stateB`. -/
theorem cancel_session_spec_witness :
    (cancel_session 5 stateB).1 = true ∧
    (∀ ses ∈ (cancel_session 5 stateB).2.sessions,
      ses.session_id = 5 → ses.status = "cancelled") ∧
    (∀ ses ∈ stateB.sessions, ses.session_id ≠ 5 →
      ses ∈ (cancel_session 5 stateB).2.sessions) ∧
    (∀ sl ∈ stateB.slots, sl.session_id = some 5 →
      { sl with is_available := true, session_id := none } ∈
        (cancel_session 5 stateB).2.slots) ∧
    (∀ sl ∈ (cancel_session 5 stateB).2.slots, sl.session_id ≠ some 5) ∧
    (∀ sl ∈ stateB.slots, sl.session_id ≠ some 5 →
      sl ∈ (cancel_session 5 stateB).2.slots) :=
  (cancel_session_spec 5 stateB (by decide)).1 (by decide)

/-- C7: completing a confirmed session returns success, marks the session
'completed', leaves every other session untouched, and does not touch the
slot table at all — in particular the claimed slot stays unavailable. -/
theorem complete_session_spec (sid : Nat) (s : SchedulerState)
    (hinv : slotInv s)
    (hex : ∃ ses ∈ s.sessions, ses.session_id = sid ∧ ses.status = "confirmed") :
    (complete_session sid s).1 = true ∧
    (complete_session sid s).2.slots = s.slots ∧
    (∀ ses ∈ (complete_session sid s).2.sessions,
      ses.session_id = sid → ses.status = "completed") ∧
    (∀ ses ∈ s.sessions, ses.session_id ≠ sid →
      ses ∈ (complete_session sid s).2.sessions) ∧
    (∀ sl ∈ (complete_session sid s).2.slots,
      sl.session_id = some sid → sl.is_available = false) := by
  obtain ⟨ses0, hses0, hid0, _⟩ := hex
  have hcount : 0 < (s.sessions.filter (fun ses => ses.session_id == sid)).length := by
    have : ses0 ∈ s.sessions.filter (fun ses => ses.session_id == sid) :=
      List.mem_filter.mpr ⟨hses0, by simp [hid0]⟩
    exact List.length_pos.mpr (List.ne_nil_of_mem this)
  have hslots : (complete_session sid s).2.slots = s.slots := by
    rw [complete_session_state]
  refine ⟨?_, hslots, ?_, ?_, ?_⟩
  · rw [complete_session_fst]
    simpa using hcount
  · intro ses hses hid
    rw [complete_session_state] at hses
    obtain ⟨x, hx, hfx⟩ := List.mem_map.mp hses
    by_cases hq : x.session_id = sid
    · rw [if_pos hq] at hfx
      rw [← hfx]
    · rw [if_neg hq] at hfx
      rw [← hfx] at hid
      exact absurd hid hq
  · intro ses hses hid
    rw [complete_session_state]
    exact List.mem_map.mpr ⟨ses, hses, if_neg hid⟩
  · intro sl hsl href
    rw [hslots] at hsl
    have := (hinv sl hsl).mp (by rw [href]; rfl)
    exact this

/-- Witness for C7: completing the confirmed session 5 of `stateB`. -/
theorem complete_session_spec_witness :
    (complete_session 5 stateB).1 = true ∧
    (complete_session 5 stateB).2.slots = stateB.slots ∧
    (∀ ses ∈ (complete_session 5 stateB).2.sessions,
      ses.session_id = 5 → ses.status = "completed") ∧
    (∀ ses ∈ stateB.sessions, ses.session_id ≠ 5 →
      ses ∈ (complete_session 5 stateB).2.sessions) ∧
    (∀ sl ∈ (complete_session 5 stateB).2.slots,
      sl.session_id = some 5 → sl.is_available = false) :=
  complete_session_spec 5 stateB (by decide) (by decide)

/-- Shared shape facts for slots generated onto an empty store. -/
lemma generated_slot_facts {now : Nat} {s : SchedulerState} (hempty : s.slots = [])
    {sl : Slot} (hmem : sl ∈ (generate_default_slots now s).slots) :
    sl.is_available = true ∧ sl.session_id = none ∧
    sl.end_time = sl.start_time + 60 ∧
    ∃ i hh, i < 7 ∧ 9 ≤ hh ∧ hh < 17 ∧ weekday (now / 1440 + i) < 5 ∧
      sl.start_time = (now / 1440 + i) * 1440 + hh * 60 := by
  have h0 : ¬ 0 < s.slots.length := by rw [hempty]; simp
  have hgen : (generate_default_slots now s).slots =
      assignIds s.nextId now (dayStarts (now / 1440) 7) := by
    unfold generate_default_slots
    rw [if_neg h0]
  rw [hgen] at hmem
  obtain ⟨h1, h2, h3, h4, _⟩ := mem_assignIds hmem
  obtain ⟨i, hi, hwd, hx⟩ := mem_dayStarts.mp h4
  obtain ⟨hh, h9, h17, hst⟩ := mem_hourStarts.mp hx
  exact ⟨h1, h2, h3, i, hh, hi, h9, h17, hwd, hst⟩

/-- C8: seeding is idempotent (a second run on the produced state changes
nothing, whatever the clock then reads), and on an empty store it
generates exactly `8 * weekdayCount` one-hour slots over the 7-calendar-day
horizon starting at 09:00 of the current day: every slot is fully
available, one hour long, starts at a whole hour between 09:00 and 16:00
of a non-weekend day of the window, and each such (day, hour) pair is hit
by exactly one slot. -/
theorem generate_default_slots_spec (now : Nat) (s : SchedulerState) :
    (∀ now2, generate_default_slots now2 (generate_default_slots now s) =
      generate_default_slots now s) ∧
    (s.slots = [] →
      (generate_default_slots now s).slots.length = 8 * weekdayCount (now / 1440) 7 ∧
      (∀ sl ∈ (generate_default_slots now s).slots,
        sl.is_available = true ∧ sl.session_id = none ∧
        sl.end_time = sl.start_time + 60 ∧ sl.start_time < sl.end_time ∧
        weekday (dayOf sl.start_time) < 5 ∧
        now / 1440 ≤ dayOf sl.start_time ∧ dayOf sl.start_time < now / 1440 + 7 ∧
        9 ≤ minuteOfDay sl.start_time / 60 ∧ minuteOfDay sl.start_time / 60 < 17 ∧
        minuteOfDay sl.start_time % 60 = 0) ∧
      (∀ d hh, now / 1440 ≤ d → d < now / 1440 + 7 → weekday d < 5 →
        9 ≤ hh → hh < 17 →
        ((generate_default_slots now s).slots.filter
          (fun sl => sl.start_time == d * 1440 + hh * 60)).length = 1)) := by
  constructor
  · intro now2
    by_cases h0 : 0 < s.slots.length
    · have h1 : generate_default_slots now s = s := by
        unfold generate_default_slots
        rw [if_pos h0]
      rw [h1]
      unfold generate_default_slots
      rw [if_pos h0]
    · have hgen : generate_default_slots now s =
          { slots := assignIds s.nextId now (dayStarts (now / 1440) 7)
            sessions := s.sessions
            nextId := s.nextId + (dayStarts (now / 1440) 7).length } := by
        unfold generate_default_slots
        rw [if_neg h0]
      have hlen : 0 < (assignIds s.nextId now (dayStarts (now / 1440) 7)).length := by
        rw [assignIds_length, dayStarts_length]
        have := weekdayCount_seven_pos (now / 1440)
        omega
      rw [hgen]
      unfold generate_default_slots
      rw [if_pos hlen]
  · intro hempty
    have h0 : ¬ 0 < s.slots.length := by rw [hempty]; simp
    have hgen : (generate_default_slots now s).slots =
        assignIds s.nextId now (dayStarts (now / 1440) 7) := by
      unfold generate_default_slots
      rw [if_neg h0]
    refine ⟨?_, ?_, ?_⟩
    · rw [hgen, assignIds_length, dayStarts_length]
    · intro sl hsl
      obtain ⟨h1, h2, h3, i, hh, hi, h9, h17, hwd, hst⟩ :=
        generated_slot_facts hempty hsl
      have hdiv : sl.start_time / 1440 = now / 1440 + i ∧
          sl.start_time % 1440 = hh * 60 := by omega
      refine ⟨h1, h2, h3, by omega, ?_, ?_, ?_, ?_, ?_, ?_⟩
      · unfold dayOf
        rw [hdiv.1]
        exact hwd
      · unfold dayOf; omega
      · unfold dayOf; omega
      · unfold minuteOfDay; omega
      · unfold minuteOfDay; omega
      · unfold minuteOfDay; omega
    · intro d hh hdlo hdhi hwd h9 h17
      rw [hgen, length_filter_start, assignIds_map_start]
      apply List.count_eq_one_of_mem (dayStarts_nodup 7 (now / 1440))
      apply mem_dayStarts.mpr
      refine ⟨d - now / 1440, by omega, ?_, ?_⟩
      · rw [show now / 1440 + (d - now / 1440) = d by omega]
        exact hwd
      · rw [show now / 1440 + (d - now / 1440) = d by omega]
        exact mem_hourStarts.mpr ⟨hh, h9, h17, rfl⟩

/-- Witness for C8: seeding an empty store at 10:00 of day 0. -/
theorem generate_default_slots_spec_witness :
    (generate_default_slots 600 emptyState).slots.length =
      8 * weekdayCount (600 / 1440) 7 ∧
    (∀ sl ∈ (generate_default_slots 600 emptyState).slots,
      sl.is_available = true ∧ sl.session_id = none ∧
      sl.end_time = sl.start_time + 60 ∧ sl.start_time < sl.end_time ∧
      weekday (dayOf sl.start_time) < 5 ∧
      600 / 1440 ≤ dayOf sl.start_time ∧ dayOf sl.start_time < 600 / 1440 + 7 ∧
      9 ≤ minuteOfDay sl.start_time / 60 ∧ minuteOfDay sl.start_time / 60 < 17 ∧
      minuteOfDay sl.start_time % 60 = 0) ∧
    (∀ d hh, 600 / 1440 ≤ d → d < 600 / 1440 + 7 → weekday d < 5 →
      9 ≤ hh → hh < 17 →
      ((generate_default_slots 600 emptyState).slots.filter
        (fun sl => sl.start_time == d * 1440 + hh * 60)).length = 1) :=
  (generate_default_slots_spec 600 emptyState).2 rfl

/-- C9 counterexample: with a storage error injected into slot generation
(and none into schema creation), `__init__` still completes normally —
the except handler at src/scheduler.py lines 106-107 only prints — so the
error is not surfaced as a fatal initialization error. -/
theorem seeding_error_not_fatal_counterexample :
    scheduler_init false true 600 emptyState = Except.ok emptyState := rfl

/-- C9 amended: a storage error during seeding aborts the whole seeding —
the rolled-back store is returned unchanged, with no partial seed — but
the error is swallowed and initialization completes normally; only a
schema-creation error in `init_scheduler_db` aborts initialization. -/
theorem seeding_error_swallowed (gen_error : Bool) (now : Nat) (s : SchedulerState) :
    scheduler_init true gen_error now s = Except.error InitError.storageUnavailable ∧
    scheduler_init false true now s = Except.ok s :=
  ⟨rfl, rfl⟩

/-- C10 counterexample: at 10:00 on a Monday (now = 6360, day 4) the
seeded store holds 40 slots (5 weekdays × 8) but `get_available_slots`
returns only 38 of them — the 09:00 and 10:00 slots of the current day
are not strictly after "now". -/
theorem seed_then_list_counterexample :
    (get_available_slots 6360 7 (generate_default_slots 6360 emptyState)).length = 38 ∧
    8 * weekdayCount (6360 / 1440) 7 = 40 := by
  constructor
  · rfl
  · rfl

/-- C10 amended: when the scenario runs strictly before 09:00 local time,
seeding an empty store and listing 7 days ahead returns exactly
`8 * weekdayCount` slots — every generated slot: each starts strictly
after now and strictly before now + 7 days, at a whole hour between 09:00
and 16:00, and the result is ordered ascending by start instant. -/
theorem seed_then_list_spec (now : Nat) (s : SchedulerState)
    (hempty : s.slots = []) (hmorning : now % 1440 < 540) :
    (get_available_slots now 7 (generate_default_slots now s)).length =
      8 * weekdayCount (now / 1440) 7 ∧
    (∀ sl ∈ get_available_slots now 7 (generate_default_slots now s),
      now < sl.start_time ∧ sl.start_time < now + 7 * 1440 ∧
      9 ≤ minuteOfDay sl.start_time / 60 ∧ minuteOfDay sl.start_time / 60 < 17) ∧
    List.Sorted slotLE (get_available_slots now 7 (generate_default_slots now s)) := by
  have h0 : ¬ 0 < s.slots.length := by rw [hempty]; simp
  have hgen : (generate_default_slots now s).slots =
      assignIds s.nextId now (dayStarts (now / 1440) 7) := by
    unfold generate_default_slots
    rw [if_neg h0]
  have hall : ∀ sl ∈ (generate_default_slots now s).slots,
      (sl.is_available && decide (now < sl.start_time) &&
        decide (sl.start_time < now + 7 * 1440)) = true := by
    intro sl hsl
    obtain ⟨h1, _, _, i, hh, hi, h9, h17, _, hst⟩ := generated_slot_facts hempty hsl
    simp only [Bool.and_eq_true, decide_eq_true_eq]
    refine ⟨⟨by rw [h1], ?_⟩, ?_⟩ <;> omega
  have hfeq : (generate_default_slots now s).slots.filter
      (fun sl => sl.is_available && decide (now < sl.start_time) &&
        decide (sl.start_time < now + 7 * 1440)) =
      (generate_default_slots now s).slots :=
    List.filter_eq_self.mpr hall
  unfold get_available_slots
  rw [hfeq]
  refine ⟨?_, ?_, ?_⟩
  · rw [List.length_insertionSort, hgen, assignIds_length, dayStarts_length]
  · intro sl hsl
    rw [List.mem_insertionSort] at hsl
    obtain ⟨_, _, _, i, hh, hi, h9, h17, _, hst⟩ := generated_slot_facts hempty hsl
    unfold minuteOfDay
    refine ⟨?_, ?_, ?_, ?_⟩ <;> omega
  · exact List.sorted_insertionSort slotLE _

/-- Witness for the amended C10: the scenario at 05:00 of day 4 (a Monday). -/
theorem seed_then_list_spec_witness :
    (get_available_slots 6060 7 (generate_default_slots 6060 emptyState)).length =
      8 * weekdayCount (6060 / 1440) 7 ∧
    (∀ sl ∈ get_available_slots 6060 7 (generate_default_slots 6060 emptyState),
      6060 < sl.start_time ∧ sl.start_time < 6060 + 7 * 1440 ∧
      9 ≤ minuteOfDay sl.start_time / 60 ∧ minuteOfDay sl.start_time / 60 < 17) ∧
    List.Sorted slotLE (get_available_slots 6060 7 (generate_default_slots 6060 emptyState)) :=
  seed_then_list_spec 6060 emptyState rfl (by decide)

end InterviewScheduler
